import Mathlib

/-!
Verification of the `common/utils.py` utility module of MahjongCopilot.

The module's stateful component is `FPSCounter` (frame-rate counter); the
other checked functions are `wait_for_file` (existence polling with timeout),
`install_root_cert` (platform-branching certificate installation) and
`random_str` (random alphanumeric string).

Embedding conventions: timestamps and elapsed times are rationals (the
Python code uses `time.time()` floats; the algorithms only compare, subtract
and divide, which ℚ models exactly); Python `int` fields are `ℤ`; the
external world of a function (clock readings, file existence, the exit
status of a spawned command, the random source) is passed in as explicit
arguments; a Python function that can raise is embedded in `Except`.
-/

namespace MahjongUtils

/-- State of `FPSCounter`: fields `_start_time`, `_frame_count`, `_fps`
of the Python class. -/
structure FPSCounter where
  start_time : ℚ
  frame_count : ℤ
  fps : ℚ
  deriving Repr, DecidableEq

namespace FPSCounter

/-- `FPSCounter.__init__`: `_start_time = time.time()`, `_frame_count = 0`,
`_fps = 0`. The current clock reading is the argument `now`. -/
def init (now : ℚ) : FPSCounter :=
  { start_time := now, frame_count := 0, fps := 0 }

/-- `FPSCounter.frame`: increment `_frame_count`; if at least 1.0 second
elapsed since `_start_time`, recompute `_fps` and restart the window. -/
def frame (c : FPSCounter) (now : ℚ) : FPSCounter :=
  let frame_count := c.frame_count + 1
  let elapsed := now - c.start_time
  if elapsed ≥ 1 then
    { start_time := now, frame_count := 0, fps := (frame_count : ℚ) / elapsed }
  else
    { c with frame_count := frame_count }

/-- `FPSCounter.reset`: calls `self.__init__()` at the current time. -/
def reset (_c : FPSCounter) (now : ℚ) : FPSCounter :=
  init now

/-- The `fps` property: returns `self._fps` and leaves the state unchanged
(the returned state records that the getter has no side effect). -/
def rate (c : FPSCounter) : ℚ × FPSCounter :=
  (c.fps, c)

/-- One call against the counter: `frame` and `reset` take the clock reading
at the moment of the call; the `fps` getter takes none. -/
inductive Op where
  | frame (now : ℚ)
  | reset (now : ℚ)
  | rate
  deriving Repr, DecidableEq

/-- Apply one call to the state. -/
def step (c : FPSCounter) : Op → FPSCounter
  | .frame now => c.frame now
  | .reset now => c.reset now
  | .rate => (c.rate).2

/-- Run a sequence of calls against a counter created at time `t0`. -/
def run (t0 : ℚ) (ops : List Op) : FPSCounter :=
  ops.foldl step (init t0)

/-- The state invariant of the claims: the frame count and the computed
rate are never negative. -/
def Inv (c : FPSCounter) : Prop :=
  0 ≤ c.frame_count ∧ 0 ≤ c.fps

/-- The call `op`, made from state `c`, is not a `frame` call observing an
elapsed time of 1.0 or more. -/
def opKeepsWindow (c : FPSCounter) : Op → Bool
  | .frame now => decide (now - c.start_time < 1)
  | .reset _ => true
  | .rate => true

/-- No `frame` call in the list, executed from state `c`, observes an
elapsed time of 1.0 or more (so no window ever closes). -/
def noClose (c : FPSCounter) : List Op → Bool
  | [] => true
  | op :: ops => opKeepsWindow c op && noClose (c.step op) ops

end FPSCounter

end MahjongUtils

namespace MahjongUtils

open FPSCounter

/-- C1: `frame` increments the frame count by 1; with `elapsed = now -
start_time`, if `elapsed ≥ 1.0` it sets the rate to the incremented count
divided by `elapsed`, moves the window start to `now` and zeroes the count;
otherwise it changes nothing further. -/
theorem frame_spec (c : FPSCounter) (now : ℚ) :
    c.frame now =
      if now - c.start_time ≥ 1 then
        { start_time := now, frame_count := 0,
          fps := (c.frame_count + 1 : ℚ) / (now - c.start_time) }
      else
        { c with frame_count := c.frame_count + 1 } := by
  unfold FPSCounter.frame
  split <;> simp_all

/-- C2: `reset` at time `t` yields exactly the state `__init__` produces at
time `t`, and the `fps` getter on that state returns 0. -/
theorem reset_eq_init (c : FPSCounter) (t : ℚ) :
    c.reset t = FPSCounter.init t ∧ ((c.reset t).rate).1 = 0 :=
  ⟨rfl, rfl⟩


/-- Each single call preserves the invariant `0 ≤ frame_count ∧ 0 ≤ fps`. -/
theorem Inv_step (c : FPSCounter) (op : Op) (h : Inv c) : Inv (c.step op) := by
  obtain ⟨hc, hf⟩ := h
  cases op with
  | frame now =>
    simp only [step, FPSCounter.frame]
    split
    · rename_i hel
      refine ⟨le_refl 0, div_nonneg ?_ (by linarith)⟩
      have hc' : (0 : ℚ) ≤ (c.frame_count : ℚ) := by exact_mod_cast hc
      push_cast
      linarith
    · exact ⟨by show (0:ℤ) ≤ c.frame_count + 1; linarith, hf⟩
  | reset now => exact ⟨le_refl 0, le_refl 0⟩
  | rate => exact ⟨hc, hf⟩

/-- The invariant is preserved by any whole call sequence. -/
theorem Inv_foldl (ops : List Op) :
    ∀ c : FPSCounter, Inv c → Inv (ops.foldl step c) := by
  induction ops with
  | nil => intro c h; exact h
  | cons op ops ih =>
    intro c h
    rw [List.foldl_cons]
    exact ih _ (Inv_step c op h)

/-- C3: after any sequence of calls from a freshly created counter, the
frame count and the rate are non-negative (the invariant holds initially
and after every operation, every prefix of a call sequence being itself a
call sequence). -/
theorem Inv_run (t0 : ℚ) (ops : List Op) : Inv (run t0 ops) :=
  Inv_foldl ops (init t0) ⟨le_refl 0, le_refl 0⟩

/-- C4: a `frame` call that observes `elapsed < 1.0` leaves `fps` and
`start_time` unchanged and only increments `frame_count`; the `fps` getter
mutates nothing and repeated getter calls return the same value. -/
theorem rate_stable (c : FPSCounter) (now : ℚ) (h : now - c.start_time < 1) :
    (c.frame now).fps = c.fps ∧
    (c.frame now).start_time = c.start_time ∧
    (c.frame now).frame_count = c.frame_count + 1 ∧
    (c.rate).2 = c ∧
    (c.rate).1 = (((c.rate).2).rate).1 := by
  refine ⟨?_, ?_, ?_, rfl, rfl⟩ <;>
    · simp only [FPSCounter.frame]
      rw [if_neg (by linarith)]

/-- Witness for C4 at a concrete state and time. -/
theorem rate_stable_witness :
    ((⟨0, 5, 7⟩ : FPSCounter).frame (1/2)).fps = 7 ∧
    ((⟨0, 5, 7⟩ : FPSCounter).frame (1/2)).start_time = 0 ∧
    ((⟨0, 5, 7⟩ : FPSCounter).frame (1/2)).frame_count = 5 + 1 ∧
    ((⟨0, 5, 7⟩ : FPSCounter).rate).2 = ⟨0, 5, 7⟩ ∧
    ((⟨0, 5, 7⟩ : FPSCounter).rate).1 = ((((⟨0, 5, 7⟩ : FPSCounter).rate).2).rate).1 :=
  rate_stable ⟨0, 5, 7⟩ (1/2) (by norm_num)

/-- Rate stays zero along any call sequence in which no `frame` call
observes one full second of elapsed time. -/
theorem fps_zero_of_noClose (ops : List Op) :
    ∀ c : FPSCounter, c.fps = 0 → noClose c ops = true →
      ((ops.foldl step c).rate).1 = 0 := by
  induction ops with
  | nil => intro c h0 _; exact h0
  | cons op ops ih =>
    intro c h0 hnc
    rw [noClose, Bool.and_eq_true] at hnc
    obtain ⟨hop, hrest⟩ := hnc
    rw [List.foldl_cons]
    refine ih _ ?_ hrest
    cases op with
    | frame now =>
      simp only [opKeepsWindow, decide_eq_true_eq] at hop
      simp only [step, FPSCounter.frame]
      rw [if_neg (by linarith)]
      exact h0
    | reset now => rfl
    | rate => exact h0

/-- C5: a fresh counter has rate 0, and the rate stays 0 as long as no
`frame` call observes `elapsed ≥ 1.0`: in particular it is 0 with no
`frame` calls at all, and still 0 after a single `frame` at elapsed `0.5`. -/
theorem fresh_rate_zero (t : ℚ) (ops : List Op) (h : noClose (init t) ops = true) :
    ((init t).rate).1 = 0 ∧
    ((run t ops).rate).1 = 0 ∧
    (((init t).frame (t + 1/2)).rate).1 = 0 := by
  refine ⟨rfl, fps_zero_of_noClose ops (init t) rfl h, ?_⟩
  simp only [FPSCounter.frame, rate, init]
  rw [if_neg (by norm_num)]

/-- Witness for C5: created at `t = 0`, a lone `frame` call at `t = 0.5`
closes no window, and all three rates are 0. -/
theorem fresh_rate_zero_witness :
    noClose (init 0) [Op.frame (1/2)] = true ∧
    (((init 0).rate).1 = 0 ∧
     ((run 0 [Op.frame (1/2)]).rate).1 = 0 ∧
     (((init 0).frame (0 + 1/2)).rate).1 = 0) :=
  have h : noClose (init 0) [Op.frame (1/2)] = true := by
    norm_num [noClose, opKeepsWindow, init]
  ⟨h, fresh_rate_zero 0 [Op.frame (1/2)] h⟩

/-- C6: counter created at `t = 0`, one `frame` call at each of
`t = 0.1, 0.2, …, 1.0`: the tenth call observes `elapsed = 1.0` and leaves
`fps = 10`, `frame_count = 0`, `start_time = 1`. -/
theorem ten_ticks_scenario :
    [1/10, 2/10, 3/10, 4/10, 5/10, 6/10, 7/10, 8/10, 9/10, 10/10].foldl
      FPSCounter.frame (init 0) =
      { start_time := 1, frame_count := 0, fps := 10 } := by
  norm_num [List.foldl, FPSCounter.frame, init]

/-!
`wait_for_file(file, timeout)`: starting from `start_time = time.time()`,
loop `while not exists(file)`: return `False` once `time.time() - start_time
> timeout`, else `sleep(0.5)` and re-check; return `True` when the file
exists. Idealised timing (checks take no time): the k-th existence check
happens at elapsed time `k/2`; `ex k` tells whether the file exists then.
The second component of the result counts how many times the loop body ran
(each body run performs exactly one timeout check, and a sleep unless it
returned `False`). `fuel` bounds the recursion; `wait_for_file` passes
enough fuel that it is never exhausted.
-/

/-- The polling loop of `wait_for_file`, instrumented with the number of
loop-body entries (timeout checks). -/
def pollLoop (ex : ℕ → Bool) (timeout : ℚ) : ℕ → ℕ → Bool × ℕ
  | 0, _ => (false, 0)
  | fuel + 1, k =>
    if ex k then (true, 0)
    else if (k : ℚ) / 2 > timeout then (false, 1)
    else
      let r := pollLoop ex timeout fuel (k + 1)
      (r.1, r.2 + 1)

/-- `wait_for_file`, with the loop-body count kept. -/
def wait_for_file_run (ex : ℕ → Bool) (timeout : ℚ) : Bool × ℕ :=
  pollLoop ex timeout (⌊2 * timeout⌋₊ + 1 + 1) 0

/-- `wait_for_file` proper: the boolean the Python function returns. -/
def wait_for_file (ex : ℕ → Bool) (timeout : ℚ) : Bool :=
  (wait_for_file_run ex timeout).1

/-- Index of the first poll whose elapsed time `k/2` strictly exceeds the
timeout: the last existence check the loop can perform before giving up. -/
def lastPoll (timeout : ℚ) : ℕ :=
  if timeout < 0 then 0 else ⌊2 * timeout⌋₊ + 1

theorem lastPoll_le (timeout : ℚ) : lastPoll timeout ≤ ⌊2 * timeout⌋₊ + 1 := by
  unfold lastPoll
  split
  · exact Nat.zero_le _
  · exact le_refl _

/-- `k/2 > timeout` exactly when `k` is at or past `lastPoll timeout`. -/
theorem lastPoll_spec (timeout : ℚ) (k : ℕ) :
    (k : ℚ) / 2 > timeout ↔ lastPoll timeout ≤ k := by
  unfold lastPoll
  split
  · rename_i hneg
    constructor
    · intro _; exact Nat.zero_le _
    · intro _
      have : (0 : ℚ) ≤ (k : ℚ) / 2 := by positivity
      linarith
  · rename_i hpos
    push_neg at hpos
    constructor
    · intro hgt
      by_contra hlt
      push_neg at hlt
      have hk : k ≤ ⌊2 * timeout⌋₊ := by omega
      have : (k : ℚ) ≤ ⌊2 * timeout⌋₊ := by exact_mod_cast hk
      have hfl : (⌊2 * timeout⌋₊ : ℚ) ≤ 2 * timeout :=
        Nat.floor_le (by linarith)
      linarith
    · intro hle
      have : (⌊2 * timeout⌋₊ + 1 : ℚ) ≤ (k : ℚ) := by exact_mod_cast hle
      have hfl : 2 * timeout < ⌊2 * timeout⌋₊ + 1 := Nat.lt_floor_add_one _
      linarith

/-- The loop returns `true` exactly when the file exists at some poll
between the current index and `lastPoll`, provided the fuel suffices. -/
theorem pollLoop_true_iff (ex : ℕ → Bool) (timeout : ℚ) :
    ∀ fuel k : ℕ, lastPoll timeout + 1 ≤ fuel + k → k ≤ lastPoll timeout →
      ((pollLoop ex timeout fuel k).1 = true ↔
        ∃ j : ℕ, k ≤ j ∧ j ≤ lastPoll timeout ∧ ex j = true) := by
  intro fuel
  induction fuel with
  | zero => intro k hfuel hk; omega
  | succ fuel ih =>
    intro k hfuel hk
    rw [pollLoop]
    by_cases hex : ex k = true
    · rw [if_pos hex]
      simp only [true_iff]
      exact ⟨k, le_refl k, hk, hex⟩
    · rw [if_neg hex]
      by_cases hto : (k : ℚ) / 2 > timeout
      · rw [if_pos hto]
        have hkeq : k = lastPoll timeout :=
          le_antisymm hk ((lastPoll_spec timeout k).mp hto)
        simp only [Bool.false_eq_true, false_iff]
        rintro ⟨j, hkj, hjl, hexj⟩
        have : j = k := by omega
        rw [this] at hexj
        exact hex hexj
      · rw [if_neg hto]
        have hklt : k < lastPoll timeout := by
          have := (lastPoll_spec timeout k).not.mp hto
          omega
        have hstep := ih (k + 1) (by omega) (by omega)
        simp only [hstep]
        constructor
        · rintro ⟨j, hkj, hjl, hexj⟩
          exact ⟨j, by omega, hjl, hexj⟩
        · rintro ⟨j, hkj, hjl, hexj⟩
          have hne : j ≠ k := by
            intro he; rw [he] at hexj; exact hex hexj
          exact ⟨j, by omega, hjl, hexj⟩

/-- Amended C8: `wait_for_file` returns `True` exactly when the path exists
at some poll `k` (at elapsed time `k/2`) with `k ≤ lastPoll timeout`, where
`lastPoll timeout` is the first poll at which the elapsed time strictly
exceeds the timeout — one existence check more than the polls that happen
before the timeout has elapsed. -/
theorem wait_for_file_true_iff (ex : ℕ → Bool) (timeout : ℚ) :
    wait_for_file ex timeout = true ↔
      ∃ j : ℕ, j ≤ lastPoll timeout ∧ ex j = true := by
  unfold wait_for_file wait_for_file_run
  have h := pollLoop_true_iff ex timeout (⌊2 * timeout⌋₊ + 1 + 1) 0
    (by have := lastPoll_le timeout; omega) (Nat.zero_le _)
  rw [h]
  constructor
  · rintro ⟨j, _, hjl, hexj⟩; exact ⟨j, hjl, hexj⟩
  · rintro ⟨j, hjl, hexj⟩; exact ⟨j, Nat.zero_le j, hjl, hexj⟩

/-- Counterexample to C8 as stated: with a timeout of `1/4`, a file that
appears only at the second poll (elapsed `0.5`, after the timeout has
elapsed) still makes `wait_for_file` return `True`, although the path did
not exist at any poll made before the timeout elapsed (elapsed `≤ 1/4`). -/
theorem wait_for_file_counterexample :
    wait_for_file (fun k => k == 1) (1/4) = true ∧
    (fun k : ℕ => k == 1) 0 = false ∧
    ¬((0 : ℚ) / 2 > 1/4) ∧ ((1 : ℚ) / 2 > 1/4) := by
  refine ⟨?_, rfl, by norm_num, by norm_num⟩
  norm_num [wait_for_file, wait_for_file_run, pollLoop]

/-- C10: if the file already exists at the moment of the call (poll 0),
`wait_for_file` returns `True` with zero loop-body entries — no timeout
check and no sleep — whatever the timeout, including zero and negative. -/
theorem wait_for_file_immediate (ex : ℕ → Bool) (timeout : ℚ)
    (h : ex 0 = true) : wait_for_file_run ex timeout = (true, 0) := by
  unfold wait_for_file_run
  rw [pollLoop, if_pos h]

/-- Witness for C10 at an always-existing file and a negative timeout. -/
theorem wait_for_file_immediate_witness :
    (fun _ : ℕ => true) 0 = true ∧
    wait_for_file_run (fun _ => true) (-3) = (true, 0) :=
  ⟨rfl, wait_for_file_immediate (fun _ => true) (-3) rfl⟩

/-!
`install_root_cert(cert_file)`: on `win32` it runs `certutil` with
`check=False`; on `darwin` it runs `security add-trusted-cert` with
`check=True` (so `subprocess.run` raises `CalledProcessError` on a nonzero
exit status); on any other platform it returns `(False, "")`. After a run
that did not raise, it returns `(returncode == 0, stdout)`. The external
command's outcome is passed in as a `CmdResult`; a raised exception is an
`Except.error`.
-/

/-- Outcome of the spawned external command: exit status and captured
standard output. -/
structure CmdResult where
  returncode : ℤ
  stdout : String
  deriving Repr, DecidableEq

/-- `subprocess.run(..., check=check)`: with `check=True` a nonzero exit
status raises `CalledProcessError`; otherwise the result is returned. -/
def subprocessRun (check : Bool) (res : CmdResult) : Except String CmdResult :=
  if check = true ∧ res.returncode ≠ 0 then Except.error "CalledProcessError"
  else Except.ok res

/-- `install_root_cert`: platform branch runs the command (`check=False` on
win32, `check=True` on darwin), then the shared tail maps the result to
`(returncode == 0, stdout)`; unknown platforms yield `(False, "")`. -/
def install_root_cert (platform : String) (res : CmdResult) :
    Except String (Bool × String) :=
  if platform = "win32" then
    (subprocessRun false res).map fun r =>
      if r.returncode = 0 then (true, r.stdout) else (false, r.stdout)
  else if platform = "darwin" then
    (subprocessRun true res).map fun r =>
      if r.returncode = 0 then (true, r.stdout) else (false, r.stdout)
  else
    Except.ok (false, "")

/-- C7 (code bug): on darwin a failing command makes `install_root_cert`
raise `CalledProcessError` instead of returning `(False, stdout)` as its
docstring and the claim state — the `check=True` flag contradicts the
function's own returncode check below it; on win32 the same failing
command yields `(False, stdout)` as claimed. -/
theorem install_root_cert_darwin_raises :
    install_root_cert "darwin" ⟨1, "add-trusted-cert failed"⟩ =
      Except.error "CalledProcessError" ∧
    install_root_cert "win32" ⟨1, "add-trusted-cert failed"⟩ =
      Except.ok (false, "add-trusted-cert failed") := by
  constructor <;> rfl

/-!
`random_str(length)`: `''.join(random.choices(string.ascii_letters +
string.digits, k=length))` — `length` independent draws from the population
of letters and digits. The random source is passed in as `pick`, giving the
index drawn at each position.
-/

/-- The population `string.ascii_letters + string.digits`. -/
def population : List Char :=
  "abcdefghijklmnopqrstuvwxyzABCDEFGHIJKLMNOPQRSTUVWXYZ".toList
    ++ "0123456789".toList

/-- `random_str`: the string of the `length` drawn characters. -/
def random_str (length : ℕ) (pick : ℕ → Fin population.length) : String :=
  String.mk ((List.range length).map fun i => population.get (pick i))

/-- C9: `random_str length pick` has exactly `length` characters, and every
character of it belongs to the letters-and-digits population. -/
theorem random_str_spec (n : ℕ) (pick : ℕ → Fin population.length) :
    (random_str n pick).length = n ∧
    ((random_str n pick).data.all fun c => population.contains c) = true := by
  constructor
  · simp [random_str, String.length]
  · rw [List.all_eq_true]
    intro c hc
    simp only [random_str, List.mem_map, List.mem_range] at hc
    obtain ⟨i, _, rfl⟩ := hc
    exact List.elem_iff.mpr (population.get_mem _ _)
